import Mathlib

/-!
Verification of the HiAnime video-resolution pipeline.

Shallow embedding of the Python sources:
  * `hianime.py`            — server directory and resolution orchestrator
  * `megacloud_extractor.py`— MegaCloud resolver, playlist parser, nonce logic
  * `streamtape_extractor.py` — StreamTape resolver

Text is modelled as `List Char`.  Network calls are modelled as oracle
inputs (`Except Unit` for calls that can fail at the transport layer);
JSON parsing of the sources response is modelled by an `Option` result
carrying the parsed fields the code reads.
-/

namespace HiAnimeSpec

/-! ### Basic character / list utilities -/

/-- `[a-zA-Z0-9]`: the character class of the nonce regexes. -/
def isAlnumCh (c : Char) : Bool :=
  (decide ('a' ≤ c) && decide (c ≤ 'z')) ||
  (decide ('A' ≤ c) && decide (c ≤ 'Z')) ||
  (decide ('0' ≤ c) && decide (c ≤ '9'))

/-- Python regex word character (`\w`): alphanumeric or underscore.
`\b` in `re` is a boundary between a word and a non-word position. -/
def isWordCh (c : Char) : Bool := isAlnumCh c || decide (c = '_')

/-- Whitespace as stripped by Python `str.strip()` / `\s`. -/
def isSpaceCh (c : Char) : Bool :=
  decide (c = ' ') || decide (c = '\t') || decide (c = '\n') ||
  decide (c = '\r') || decide (c = '\x0b') || decide (c = '\x0c')

/-- `needle.isPrefixOf hay`, mirroring Python `str.startswith`. -/
def startsWithL : List Char → List Char → Bool
  | [], _ => true
  | _ :: _, [] => false
  | c :: cs, d :: ds => decide (c = d) && startsWithL cs ds

/-- Python `needle in hay` substring test. -/
def containsSub (n : List Char) : List Char → Bool
  | [] => n.isEmpty
  | c :: rest => startsWithL n (c :: rest) || containsSub n rest

/-- Match a literal at the head of the input, returning the rest. -/
def sMatchLit : List Char → List Char → Option (List Char)
  | [], s => some s
  | _ :: _, [] => none
  | c :: cs, d :: ds => if c = d then sMatchLit cs ds else none

/-- The part after the last occurrence of `n` (Python `s.split(n)[-1]`
when `n` occurs). -/
def afterLastSub (n : List Char) : List Char → Option (List Char)
  | [] => none
  | c :: rest =>
    match afterLastSub n rest with
    | some r => some r
    | none =>
      if startsWithL n (c :: rest) then some ((c :: rest).drop n.length) else none

/-- Python `s.split(sep)` for a one-character separator (always at least
one field). -/
def splitOnCh (sep : Char) : List Char → List (List Char)
  | [] => [[]]
  | c :: rest =>
    if c = sep then [] :: splitOnCh sep rest
    else
      match splitOnCh sep rest with
      | [] => [[c]]
      | l :: ls => (c :: l) :: ls

/-- Python `s.split("\n")`. -/
def splitOnNl (s : List Char) : List (List Char) := splitOnCh '\n' s

/-- Python `str.strip()`. -/
def stripL (s : List Char) : List Char :=
  ((s.dropWhile isSpaceCh).reverse.dropWhile isSpaceCh).reverse

/-- `s[i : i+len]`. -/
def slice (s : List Char) (i len : Nat) : List Char := (s.drop i).take len

/-- Character at index `i`, with a non-word default for out-of-range
positions (so a position past the end behaves like a regex string end). -/
def charAt (s : List Char) (i : Nat) : Char := s.getD i ' '

/-- First index `i` with `start ≤ i < start + n` satisfying `p`. -/
def findFrom (p : Nat → Bool) : Nat → Nat → Option Nat
  | _, 0 => none
  | start, n + 1 => if p start then some start else findFrom p (start + 1) n

/-! ### Nonce extraction (`megacloud_extractor.py` lines 118–132)

`re.search(r'\b[a-zA-Z0-9]{48}\b', body)`, and the fallback
`re.search(r'\b([a-zA-Z0-9]{16})\b.*?\b([a-zA-Z0-9]{16})\b.*?\b([a-zA-Z0-9]{16})\b', body, re.DOTALL)`.

A `\b`-delimited run of `len` alphanumeric characters starting at `i`:
all `len` characters are alphanumeric, the character before `i` (if any)
is not a word character, and the character after the run (if any) is not
a word character. -/

/-- All of `s[i..i+len)` alphanumeric (false when the run leaves `s`,
since out-of-range positions read as `' '`). -/
def allAlnum (s : List Char) (i len : Nat) : Bool :=
  (List.range len).all fun k => isAlnumCh (charAt s (i + k))

/-- `\b`-delimited alphanumeric run of length `len` at position `i`. -/
def boundedRun (s : List Char) (i len : Nat) : Bool :=
  (decide (i = 0) || !isWordCh (charAt s (i - 1))) &&
  allAlnum s i len &&
  !isWordCh (charAt s (i + len))

/-- Leftmost `\b[a-zA-Z0-9]{48}\b` match. -/
def nonce48 (s : List Char) : Option (List Char) :=
  (findFrom (fun i => boundedRun s i 48) 0 s.length).map fun i => slice s i 48

/-- First `\b`-delimited 16-run at or after `start`. -/
def find16 (s : List Char) (start : Nat) : Option Nat :=
  findFrom (fun i => boundedRun s i 16) start (s.length - start)

/-- The 3×16 fallback: three successive `\b`-delimited 16-runs,
concatenated in document order.  Because two `\b`-delimited 16-runs
cannot overlap, left-to-right sequential search coincides with the
leftmost-match semantics of the lazy regex. -/
def nonce3x16 (s : List Char) : Option (List Char) :=
  match find16 s 0 with
  | none => none
  | some i1 =>
    match find16 s (i1 + 16) with
    | none => none
    | some i2 =>
      match find16 s (i2 + 16) with
      | none => none
      | some i3 => some (slice s i1 16 ++ slice s i2 16 ++ slice s i3 16)

/-- Nonce extraction: 48-char pattern first, then the 3×16 fallback. -/
def extractNonce (s : List Char) : Option (List Char) :=
  match nonce48 s with
  | some n => some n
  | none => nonce3x16 s

/-! ### Playlist parser (`megacloud_extractor.py` lines 214–262) -/

def markerLit : List Char := "#EXT-X-STREAM-INF".toList

def httpLit : List Char := "http".toList

/-- One HLS quality variant. -/
structure Variant where
  resolution : List Char
  url : List Char
deriving DecidableEq

/-- `RESOLUTION=(\d+x\d+)` matched at the start of `s`
(greedy digit runs followed by a literal `x`; a digit run that is not
followed by `x` cannot match by shortening, so maximal runs suffice). -/
def resAt (s : List Char) : Option (List Char) :=
  match sMatchLit "RESOLUTION=".toList s with
  | none => none
  | some r =>
    let d1 := r.takeWhile Char.isDigit
    if d1.isEmpty then none
    else
      match r.drop d1.length with
      | 'x' :: r2 =>
        let d2 := r2.takeWhile Char.isDigit
        if d2.isEmpty then none else some (d1 ++ 'x' :: d2)
      | _ => none

/-- `re.search(r'RESOLUTION=(\d+x\d+)', line)`. -/
def resSearch : List Char → Option (List Char)
  | [] => none
  | c :: rest =>
    match resAt (c :: rest) with
    | some r => some r
    | none => resSearch rest

/-- Python `m3u8_url.rsplit("/", 1)[0]`: everything before the last `/`,
or the whole string when there is no `/`. -/
def baseOf (u : List Char) : List Char :=
  match u.reverse.dropWhile (fun c => !(c = '/')) with
  | [] => u
  | _ :: r => r.reverse

/-- The variant-URL resolution of the parser: URL lines starting with
`http` pass through, others are joined to the base path. -/
def joinUrl (base u : List Char) : List Char :=
  if startsWithL httpLit u then u else base ++ '/' :: u

/-- The `for i, line in enumerate(lines)` loop of `_extract_qualities`:
each iteration looks at the current line and, for a marker line, at the
line immediately after it (`lines[i+1]`). -/
def qLoop (base : List Char) : List (List Char) → List Variant
  | [] => []
  | l :: rest =>
    (if startsWithL markerLit l then
      match rest with
      | [] => []
      | l2 :: _ =>
        let u := stripL l2
        if !u.isEmpty && !startsWithL ['#'] u then
          [⟨(resSearch l).getD "Unknown".toList, joinUrl base u⟩]
        else []
    else []) ++ qLoop base rest

/-- `_extract_qualities` applied to an already-fetched playlist text. -/
def extractQualityVariants (text m3u8Url : List Char) : List Variant :=
  qLoop (baseOf m3u8Url) (splitOnNl (stripL text))

/-- Modelled from the spec (for comparison with `qLoop`): one variant per
marker line, pairing it with the stripped next line unconditionally. -/
def specVariants (base : List Char) : List (List Char) → List Variant
  | [] => []
  | l :: rest =>
    (if startsWithL markerLit l then
      [⟨(resSearch l).getD "Unknown".toList, joinUrl base (stripL (rest.headD []))⟩]
    else []) ++ specVariants base rest

/-- Every marker line is immediately followed by a non-blank,
non-comment line (the well-formed playlists of the spec's testable
property). -/
def goodNext : List (List Char) → Bool
  | [] => true
  | l :: rest =>
    (!startsWithL markerLit l ||
      (!rest.isEmpty && !(stripL (rest.headD [])).isEmpty &&
        !startsWithL ['#'] (stripL (rest.headD [])))) &&
    goodNext rest

/-! ### Streams and subtitles (the dict shapes both extractors emit) -/

/-- A subtitle entry (`{"url": ..., "label": ...}`). -/
structure Sub where
  url : List Char
  label : List Char
deriving DecidableEq

/-- A resolved stream.  `referer` is `some r` when the emitted dict has a
`"referer"` key (MegaCloud) and `none` when it does not (StreamTape). -/
structure Stream where
  quality : List Char
  url : List Char
  subtitles : List Sub
  referer : Option (List Char)
deriving DecidableEq

/-! ### StreamTape resolver (`streamtape_extractor.py`) -/

def litInner : List Char := "innerHTML".toList

/-- `innerHTML\s*=\s*'([^']+)'` matched at the start of `s`. -/
def p1At (s : List Char) : Option (List Char) :=
  match sMatchLit litInner s with
  | none => none
  | some s1 =>
    match s1.dropWhile isSpaceCh with
    | '=' :: s3 =>
      match s3.dropWhile isSpaceCh with
      | '\'' :: s5 =>
        let cap := s5.takeWhile fun c => !(c = '\'')
        if cap.isEmpty then none
        else
          match s5.drop cap.length with
          | '\'' :: _ => some cap
          | _ => none
      | _ => none
    | _ => none

/-- `re.search(r"innerHTML\s*=\s*'([^']+)'", script)`. -/
def findPart1 : List Char → Option (List Char)
  | [] => none
  | c :: rest =>
    match p1At (c :: rest) with
    | some r => some r
    | none => findPart1 rest

/-- `\+\s*\('xcd([^']+)'\)` matched at the start of `s`. -/
def p2At (s : List Char) : Option (List Char) :=
  match s with
  | '+' :: s1 =>
    match s1.dropWhile isSpaceCh with
    | '(' :: s2 =>
      match sMatchLit "'xcd".toList s2 with
      | none => none
      | some s3 =>
        let cap := s3.takeWhile fun c => !(c = '\'')
        if cap.isEmpty then none
        else
          match s3.drop cap.length with
          | '\'' :: ')' :: _ => some cap
          | _ => none
    | _ => none
  | _ => none

/-- `re.search(r"\+\s*\('xcd([^']+)'\)", script)`. -/
def findPart2 : List Char → Option (List Char)
  | [] => none
  | c :: rest =>
    match p2At (c :: rest) with
    | some r => some r
    | none => findPart2 rest

/-- The tail of `StreamTapeExtractor.extract` once the robotlink script
body is in hand: pattern extraction and URL assembly (lines 74–89). -/
def stExtract (script quality : List Char) (subs : List Sub) : Option Stream :=
  match findPart1 script with
  | none => none
  | some p1 =>
    some ⟨quality, "https:".toList ++ p1 ++ (findPart2 script).getD [], subs, none⟩

def stBaseUrl : List Char := "https://streamtape.com/e/".toList

/-- Full `StreamTapeExtractor.extract`: URL normalization, then the page
oracle returns the body of the script containing the robotlink marker
(`none` when the fetch fails or no such script exists), then extraction. -/
def stFull (page : List Char → Option (List Char)) (url quality : List Char)
    (subs : List Sub) : Option Stream :=
  let newUrl? :=
    if startsWithL stBaseUrl url then some url
    else
      let parts := splitOnCh '/' url
      if parts.length < 5 then none
      else some (stBaseUrl ++ parts.getD 4 [])
  match newUrl? with
  | none => none
  | some newUrl =>
    match page newUrl with
    | none => none
    | some script => stExtract script quality subs

/-! ### MegaCloud resolver (`megacloud_extractor.py`) -/

def m3u8Lit : List Char := ".m3u8".toList

def splitterLit : List Char := "/e-1/".toList

/-- The part after the first occurrence of `n`. -/
def afterFirstSub (n : List Char) : List Char → Option (List Char)
  | [] => none
  | c :: rest =>
    if startsWithL n (c :: rest) then some ((c :: rest).drop n.length)
    else afterFirstSub n rest

/-- `urlparse(url).netloc` for the `scheme://host/...` URLs the code
handles: the text after the first `//` up to the next `/`, `?` or `#`
(empty when the URL has no `//`). -/
def hostOf (u : List Char) : List Char :=
  match afterFirstSub ['/', '/'] u with
  | none => []
  | some r => r.takeWhile fun c => !(c = '/') && !(c = '?') && !(c = '#')

/-- The `"referer"` value attached to every MegaCloud stream:
`f"https://{self._get_host(url)}/"`. -/
def refererOf (url : List Char) : List Char :=
  "https://".toList ++ hostOf url ++ ['/']

/-- One entry of the sources response's `tracks` list. -/
structure TrackJ where
  file : List Char
  label : Option (List Char)
  kind : Option (List Char)
deriving DecidableEq

/-- The fields of the parsed `getSources` JSON that the code reads.
`sources` holds each item's `"file"` payload; `encrypted` is `none` when
the JSON has no `encrypted` field. -/
structure SourcesJson where
  sources : List (List Char)
  encrypted : Option Bool
  tracks : List TrackJ
deriving DecidableEq

/-- The remote calls one `_get_video_dto` run can make, as oracles.
`Except.error` models a transport failure (an exception from the HTTP
client); `sourcesFetch`'s `Option` models `json.loads` failing. -/
structure McInput where
  url : List Char
  embedFetch : Except Unit (List Char)
  sourcesFetch : Except Unit (Option SourcesJson)
  keyFetch : Except Unit (List Char)
  decryptFetch : List Char → Except Unit (List Char)

/-- `"file":"(.*?)"` matched at the start of `s` (lazy capture: the
shortest run up to a closing quote, which `.` forbids from crossing a
newline). -/
def ffAt (s : List Char) : Option (List Char) :=
  match sMatchLit "\"file\":\"".toList s with
  | none => none
  | some r =>
    let cap := r.takeWhile fun c => !(c = '"') && !(c = '\n')
    match r.drop cap.length with
    | '"' :: _ => some cap
    | _ => none

/-- `re.search(r'"file":"(.*?)"', text)`. -/
def fileField : List Char → Option (List Char)
  | [] => none
  | c :: rest =>
    match ffAt (c :: rest) with
    | some r => some r
    | none => fileField rest

/-- One decryption-service round trip for one payload: transport failure
or a missing `"file"` pattern both yield `none` (both raise in the
source). -/
def decryptStep (inp : McInput) (payload : List Char) : Option (List Char) :=
  match inp.decryptFetch payload with
  | .error _ => none
  | .ok txt => fileField txt

/-- The `for source in sources` loop of `_get_video_dto` (lines 149–186),
threading the lazily-fetched key exactly as the code does.  Besides the
result it returns two observations of oracle use: how many times the key
registry was queried, and the `(payload, secret)` pairs sent to the
decryption service. -/
def sourcesLoop (inp : McInput) (enc : Bool) :
    List (List Char) → Option (List Char) →
    Except String (List (List Char)) × Nat × List (List Char × List Char)
  | [], _ => (.ok [], 0, [])
  | s :: rest, key =>
    if !enc || containsSub m3u8Lit s then
      let r := sourcesLoop inp enc rest key
      (r.1.map fun ms => s :: ms, r.2.1, r.2.2)
    else
      match key with
      | some k =>
        match decryptStep inp s with
        | none => (.error "Video URL not found in decrypted response", 0, [(s, k)])
        | some m =>
          let r := sourcesLoop inp enc rest (some k)
          (r.1.map fun ms => m :: ms, r.2.1, (s, k) :: r.2.2)
      | none =>
        match inp.keyFetch with
        | .error _ => (.error "Failed to fetch keys.json", 1, [])
        | .ok k =>
          match decryptStep inp s with
          | none => (.error "Video URL not found in decrypted response", 1, [(s, k)])
          | some m =>
            let r := sourcesLoop inp enc rest (some k)
            (r.1.map fun ms => m :: ms, r.2.1 + 1, (s, k) :: r.2.2)

/-- One entry of `_get_video_dto`'s result list. -/
structure VideoItem where
  m3u8 : List Char
  tracks : List TrackJ
deriving DecidableEq

/-- `_get_video_dto` with its oracle-use observations.  The `id`/host
checks, embed fetch, nonce extraction, sources fetch and the source loop
mirror lines 84–186 of the source. -/
def getVideoDtoI (inp : McInput) :
    Except String (List VideoItem) × Nat × List (List Char × List Char) :=
  if !containsSub splitterLit inp.url then (.error "Failed to extract ID from URL", 0, [])
  else
    let idPart := (afterLastSub splitterLit inp.url).getD []
    let videoId := idPart.takeWhile fun c => !(c = '?')
    if videoId.isEmpty then (.error "Failed to extract ID from URL", 0, [])
    else if (hostOf inp.url).isEmpty then (.error "MegaCloud host is invalid", 0, [])
    else
      match inp.embedFetch with
      | .error _ => (.error "embed page fetch failed", 0, [])
      | .ok body =>
        match extractNonce body with
        | none => (.error "Failed to extract nonce from response", 0, [])
        | some _ =>
          match inp.sourcesFetch with
          | .error _ => (.error "sources fetch failed", 0, [])
          | .ok none => (.error "Failed to parse sources response", 0, [])
          | .ok (some data) =>
            let r := sourcesLoop inp (data.encrypted.getD true) data.sources none
            (r.1.map fun ms => ms.map fun m => ⟨m, data.tracks⟩, r.2.1, r.2.2)

/-- `_get_video_dto`'s visible result. -/
def getVideoDto (inp : McInput) : Except String (List VideoItem) :=
  (getVideoDtoI inp).1

/-- Subtitle filtering of `extract` (lines 52–56). -/
def subsOf (tracks : List TrackJ) : List Sub :=
  tracks.filterMap fun t =>
    if t.kind = some "captions".toList then some ⟨t.file, t.label.getD "Unknown".toList⟩
    else none

def sepLit : List Char := " - ".toList

/-- `_extract_qualities` including its own degrade-to-empty handling:
empty URL or a failed playlist fetch yields no variants. -/
def extractQualitiesM (pf : List Char → Except Unit (List Char)) (m3u8 : List Char) :
    List Variant :=
  if m3u8.isEmpty then []
  else
    match pf m3u8 with
    | .error _ => []
    | .ok text => extractQualityVariants text m3u8

/-- The stream-assembly loop of `extract` (lines 47–76): per item, one
stream per quality variant, or a single Auto stream when no variants were
found but the playable URL is non-empty. -/
def mcBuild (pf : List Char → Except Unit (List Char)) (url ty name : List Char) :
    List VideoItem → List Stream
  | [] => []
  | v :: rest =>
    (let subs := subsOf v.tracks
     let qs := extractQualitiesM pf v.m3u8
     qs.map (fun q =>
       ⟨name ++ sepLit ++ q.resolution ++ sepLit ++ ty, q.url, subs, some (refererOf url)⟩) ++
       if qs.isEmpty && !v.m3u8.isEmpty then
         [⟨name ++ sepLit ++ "Auto".toList ++ sepLit ++ ty, v.m3u8, subs, some (refererOf url)⟩]
       else []) ++
    mcBuild pf url ty name rest

/-- `MegaCloudExtractor.extract`: the outer `try`/`except` makes every
failure of `_get_video_dto` degrade to the empty list. -/
def mcExtract (inp : McInput) (pf : List Char → Except Unit (List Char))
    (ty name : List Char) : List Stream :=
  match getVideoDto inp with
  | .error _ => []
  | .ok items => mcBuild pf inp.url ty name items

/-! ### Server directory and orchestrator (`hianime.py`) -/

/-- The four track-type buckets. -/
inductive Track where
  | sub
  | dub
  | raw
  | mixed
deriving DecidableEq

def trackStr : Track → List Char
  | .sub => "sub".toList
  | .dub => "dub".toList
  | .raw => "raw".toList
  | .mixed => "mixed".toList

/-- One hoster as listed in the servers fragment. -/
structure RawItem where
  id : List Char
  name : List Char
deriving DecidableEq

/-- Four buckets of hosters: used both for the raw page content (one list
per `div.servers-*` section) and for `get_episode_servers`' output. -/
structure ServerPage where
  sub : List RawItem
  dub : List RawItem
  raw : List RawItem
  mixed : List RawItem
deriving DecidableEq

def bucket (s : ServerPage) : Track → List RawItem
  | .sub => s.sub
  | .dub => s.dub
  | .raw => s.raw
  | .mixed => s.mixed

def hosterNames : List (List Char) :=
  ["HD-1".toList, "HD-2".toList, "HD-3".toList, "StreamTape".toList]

/-- `if server_name in self.HOSTER_NAMES` filtering. -/
def keepKnown (l : List RawItem) : List RawItem :=
  l.filter fun i => decide (i.name ∈ hosterNames)

def filOk (fil : Option Track) (t : Track) : Bool :=
  match fil with
  | none => true
  | some f => decide (f = t)

/-- `get_episode_servers(episode_id, type_filter)` applied to an
already-fetched page: only buckets matching the filter are populated
(`if type_filter and type_filter != type_key: continue`). -/
def episodeServers (page : ServerPage) (fil : Option Track) : ServerPage where
  sub := if filOk fil .sub then keepKnown page.sub else []
  dub := if filOk fil .dub then keepKnown page.dub else []
  raw := if filOk fil .raw then keepKnown page.raw else []
  mixed := if filOk fil .mixed then keepKnown page.mixed else []

def lowerL (s : List Char) : List Char := s.map Char.toLower

/-- `s["name"].lower() == server.lower()` lookup. -/
def findByName (l : List RawItem) (server : List Char) : Option RawItem :=
  l.find? fun s => decide (lowerL s.name = lowerL server)

/-- The fallback scan order of `get_video` (line 385). -/
def fallbackOrder : List Track := [.sub, .dub, .mixed, .raw]

def fallbackFind (sv : ServerPage) (server : List Char) : List Track → Option (RawItem × Track)
  | [] => none
  | t :: rest =>
    match findByName (bucket sv t) server with
    | some s => some (s, t)
    | none => fallbackFind sv server rest

/-- Target-server selection of `get_video` (lines 374–392): primary
lookup in the requested bucket of the type-filtered directory, then the
fallback scan over the buckets of that same filtered directory. -/
def selectTarget (page : ServerPage) (server : List Char) (t : Track) :
    Option (RawItem × Track) :=
  let sd := episodeServers page (some t)
  match findByName (bucket sd t) server with
  | some s => some (s, t)
  | none => fallbackFind sd server fallbackOrder

/-- The outcomes of `get_video`: the two error dicts, or the result
envelope (lines 394–423). -/
inductive GetVideoResult where
  | serverNotFound (available : ServerPage)
  | linkMissing
  | ok (server : List Char) (effType : Track) (link : List Char) (videos : List Stream)
deriving DecidableEq

def hdNames : List (List Char) := ["HD-1".toList, "HD-2".toList, "HD-3".toList]

/-- `HiAnime.get_video` applied to an already-fetched servers page, with
the source-link AJAX call and the two extractors as oracles.  Note the
dispatch compares the caller's `server` string exactly (lines 410–415),
while the lookup compared case-insensitively. -/
def getVideo (page : ServerPage) (linkOf : List Char → List Char)
    (mc : List Char → List Char → List Char → List Stream)
    (st : List Char → List Char → Option Stream)
    (server : List Char) (t : Track) : GetVideoResult :=
  let sd := episodeServers page (some t)
  match selectTarget page server t with
  | none => .serverNotFound sd
  | some (tgt, eff) =>
    let link := linkOf tgt.id
    if link.isEmpty then .linkMissing
    else
      let videos :=
        if server = "StreamTape".toList then
          match st link ("Streamtape - ".toList ++ trackStr eff) with
          | some v => [v]
          | none => []
        else if decide (server ∈ hdNames) then mc link (trackStr eff) server
        else []
      .ok server eff link videos

/-- The stream list of a `get_video` result (empty on the error dicts). -/
def videosOf : GetVideoResult → List Stream
  | .ok _ _ _ v => v
  | _ => []

/-! ### Concrete fixtures for witnesses and counterexamples -/

/-- A body that is a single 48-character alphanumeric run. -/
def body48 : List Char := List.replicate 48 'a'

/-- The same run preceded by an underscore (a word character for `\b`). -/
def bodyUnd : List Char := '_' :: List.replicate 48 'a'

/-- Modelled from the claim's words (for comparison with `boundedRun`):
a 48/len-character *alphanumeric run*, i.e. `len` alphanumeric characters
whose neighbors (when they exist) are not alphanumeric. -/
def specAlnumRun (s : List Char) (i len : Nat) : Bool :=
  (decide (i = 0) || !isAlnumCh (charAt s (i - 1))) &&
  allAlnum s i len &&
  !isAlnumCh (charAt s (i + len))

/-- Servers page listing HD-1 only under the `mixed` bucket. -/
def pageMixedOnly : ServerPage :=
  ⟨[], [], [], [⟨"7".toList, "HD-1".toList⟩]⟩

/-- Servers page listing HD-1 under the `sub` bucket. -/
def pageSubHD1 : ServerPage :=
  ⟨[⟨"1".toList, "HD-1".toList⟩], [], [], []⟩

/-- Source-link oracle returning a fixed non-empty link. -/
def linkC : List Char → List Char :=
  fun _ => "https://mega.example/embed-2/v3/e-1/abc?k=1".toList

/-- MegaCloud oracle returning one concrete stream. -/
def mcC : List Char → List Char → List Char → List Stream :=
  fun _ ty name =>
    [⟨name ++ sepLit ++ "1080x720".toList ++ sepLit ++ ty, "u".toList, [],
      some "https://mega.example/".toList⟩]

/-- StreamTape oracle returning one concrete stream. -/
def stC : List Char → List Char → Option Stream :=
  fun _ q => some ⟨q, "https://v.example/x".toList, [], none⟩

/-- A playlist whose single marker line is separated from its URL line by
a blank line. -/
def playlistGap : List Char :=
  "#EXT-X-STREAM-INF:RESOLUTION=1920x1080\n\n1080.m3u8".toList

def masterUrl : List Char := "https://cdn.example/hls/master.m3u8".toList

/-- The concrete prefix of a robotlink script up to the opening quote of
the first payload. -/
def scriptPre : List Char :=
  "document.getElementById('robotlink').innerHTML = '".toList

/-- A robotlink script with both payload parts present. -/
def scriptFull (p1 p2 : List Char) : List Char :=
  scriptPre ++ p1 ++ "' + ('xcd".toList ++ p2 ++ "');".toList

/-- A robotlink script with only the first payload part. -/
def scriptOnly1 (p1 : List Char) : List Char :=
  scriptPre ++ p1 ++ "';".toList

/-- A concrete robotlink script. -/
def scriptC : List Char :=
  scriptFull "//streamtape.example/get".toList "abc".toList

/-- A fully successful MegaCloud input whose sources JSON has no
`encrypted` field and one non-`.m3u8` payload. -/
def inpGood : McInput where
  url := "https://mega.example/embed-2/v3/e-1/vid123?z=1".toList
  embedFetch := .ok body48
  sourcesFetch := .ok (some ⟨["encpayload".toList], none, []⟩)
  keyFetch := .ok "k1".toList
  decryptFetch := fun _ => .ok "\"file\":\"https://cdn.example/v/index.m3u8\"".toList

/-- A MegaCloud input whose embed URL lacks the `/e-1/` splitter. -/
def inpBadUrl : McInput where
  url := "https://mega.example/embed/vid123".toList
  embedFetch := .ok body48
  sourcesFetch := .ok (some ⟨[], some false, []⟩)
  keyFetch := .error ()
  decryptFetch := fun _ => .error ()

/-- A one-item video list whose playlist fetch fails (Auto fallback). -/
def itemAuto : VideoItem := ⟨"https://cdn.example/v/index.m3u8".toList, []⟩

/-- A playlist-fetch oracle that always fails at transport level. -/
def pfFail : List Char → Except Unit (List Char) := fun _ => .error ()

/-- A well-formed master playlist: two marker lines, each immediately
followed by a URL line; the second marker has no RESOLUTION attribute. -/
def playlistTwo : List Char :=
  "#EXT-X-STREAM-INF:RESOLUTION=1920x1080\n1080.m3u8\n#EXT-X-STREAM-INF:BANDWIDTH=1\nlow/index.m3u8".toList

/-- A playlist-fetch oracle returning `playlistTwo`. -/
def pfTwo : List Char → Except Unit (List Char) := fun _ => .ok playlistTwo

/-! ## Theorems -/

/-! ### `findFrom` search lemmas -/

theorem findFrom_eq_some_of {p : Nat → Bool} {j : Nat} {start n : Nat}
    (hj : p j = true) (h1 : start ≤ j) (h2 : j < start + n)
    (hmin : ∀ k, start ≤ k → k < j → p k = false) :
    findFrom p start n = some j := by
  induction n generalizing start with
  | zero => omega
  | succ n ih =>
    by_cases hs : p start = true
    · have hsj : start = j := by
        by_contra hne
        have hlt : start < j := lt_of_le_of_ne h1 hne
        rw [hmin start le_rfl hlt] at hs
        exact Bool.noConfusion hs
      subst hsj
      simp [findFrom, hs]
    · have hsf : p start = false := Bool.eq_false_iff.mpr hs
      have hne : start ≠ j := fun he => hs (he ▸ hj)
      have h1' : start + 1 ≤ j := Nat.succ_le_of_lt (lt_of_le_of_ne h1 hne)
      have hrec := ih h1' (by omega) (fun k hk1 hk2 => hmin k (by omega) hk2)
      simp [findFrom, hsf, hrec]

theorem findFrom_eq_none_of {p : Nat → Bool} {start n : Nat}
    (h : ∀ k, start ≤ k → k < start + n → p k = false) :
    findFrom p start n = none := by
  induction n generalizing start with
  | zero => rfl
  | succ n ih =>
    have h0 : p start = false := h start le_rfl (by omega)
    have hrec := @ih (start + 1) (fun k hk1 hk2 => h k (by omega) (by omega))
    simp [findFrom, h0, hrec]

theorem findFrom_some {p : Nat → Bool} {start n j : Nat}
    (h : findFrom p start n = some j) :
    p j = true ∧ start ≤ j ∧ j < start + n := by
  induction n generalizing start with
  | zero => exact absurd h (by simp [findFrom])
  | succ n ih =>
    by_cases hs : p start = true
    · simp [findFrom, hs] at h
      subst h
      exact ⟨hs, le_rfl, by omega⟩
    · have hsf : p start = false := Bool.eq_false_iff.mpr hs
      simp [findFrom, hsf] at h
      obtain ⟨h1, h2, h3⟩ := ih h
      exact ⟨h1, by omega, by omega⟩

/-! ### Structure of `\b`-delimited runs -/

theorem boundedRun_parts {s : List Char} {i len : Nat} (h : boundedRun s i len = true) :
    (decide (i = 0) || !isWordCh (charAt s (i - 1))) = true ∧
    allAlnum s i len = true ∧ (!isWordCh (charAt s (i + len))) = true := by
  unfold boundedRun at h
  simp only [Bool.and_eq_true] at h
  exact ⟨h.1.1, h.1.2, h.2⟩

theorem isWordCh_of_isAlnumCh {c : Char} (h : isAlnumCh c = true) : isWordCh c = true := by
  unfold isWordCh
  simp [h]

theorem alnum_at_of_allAlnum {s : List Char} {i len k : Nat}
    (h : allAlnum s i len = true) (hk : k < len) :
    isAlnumCh (charAt s (i + k)) = true :=
  List.all_eq_true.mp h k (List.mem_range.mpr hk)

theorem lt_length_of_boundedRun {s : List Char} {i len : Nat}
    (hlen : 0 < len) (h : boundedRun s i len = true) : i < s.length := by
  by_contra hge
  push_neg at hge
  have h0 : isAlnumCh (charAt s (i + 0)) = true :=
    alnum_at_of_allAlnum (boundedRun_parts h).2.1 hlen
  rw [charAt, List.getD_eq_default _ _ (by omega)] at h0
  exact absurd h0 (by decide)

theorem boundedRun_disjoint {s : List Char} {a b len : Nat}
    (ha : boundedRun s a len = true) (hb : boundedRun s b len = true)
    (hab : a < b) : a + len ≤ b := by
  by_contra hc
  push_neg at hc
  have hchar : isAlnumCh (charAt s (b - 1)) = true := by
    have hk : b - 1 - a < len := by omega
    have := alnum_at_of_allAlnum (boundedRun_parts ha).2.1 hk
    have heq : a + (b - 1 - a) = b - 1 := by omega
    rwa [heq] at this
  have hbd := (boundedRun_parts hb).1
  have hbne : ¬(b = 0) := by omega
  rw [decide_eq_false hbne, Bool.false_or, isWordCh_of_isAlnumCh hchar] at hbd
  simp at hbd

theorem nonce48_eq_none_of {s : List Char}
    (h : ∀ j, j < s.length → boundedRun s j 48 = false) : nonce48 s = none := by
  unfold nonce48
  rw [findFrom_eq_none_of (fun k _ hk2 => h k (by omega))]
  rfl

/-- C5 (amended): nonce extraction tries the 48-character pattern first
and then the 3×16 fallback, where a "run" is delimited by the regex word
boundaries of the source's `\b` (its neighbors must be non-word
characters — underscore counts as a word character).  A body with exactly
one word-bounded 48-run yields that run; a body with no word-bounded
48-run and exactly three word-bounded 16-runs yields their concatenation
in document order; a body with neither yields no nonce (the resolution
attempt fails with no further fallback). -/
theorem c5_nonce_two_patterns (s : List Char) :
    (∀ i, boundedRun s i 48 = true →
        (∀ j, j < s.length → boundedRun s j 48 = true → j = i) →
        extractNonce s = some (slice s i 48)) ∧
    (∀ i1 i2 i3,
        (∀ j, j < s.length → boundedRun s j 48 = false) →
        boundedRun s i1 16 = true → boundedRun s i2 16 = true →
        boundedRun s i3 16 = true → i1 < i2 → i2 < i3 →
        (∀ j, j < s.length → boundedRun s j 16 = true → j = i1 ∨ j = i2 ∨ j = i3) →
        extractNonce s = some (slice s i1 16 ++ slice s i2 16 ++ slice s i3 16)) ∧
    ((∀ j, j < s.length → boundedRun s j 48 = false) →
        (¬∃ j1 j2 j3, j1 < j2 ∧ j2 < j3 ∧ boundedRun s j1 16 = true ∧
            boundedRun s j2 16 = true ∧ boundedRun s j3 16 = true) →
        extractNonce s = none) := by
  refine ⟨?_, ?_, ?_⟩
  · intro i hi hiU
    have hilt : i < s.length := lt_length_of_boundedRun (by norm_num) hi
    have hff : findFrom (fun k => boundedRun s k 48) 0 s.length = some i := by
      refine findFrom_eq_some_of (p := fun k => boundedRun s k 48) hi (Nat.zero_le i)
        (by omega) ?_
      intro k _ hk2
      cases hpk : boundedRun s k 48 with
      | false => exact hpk
      | true =>
        have := hiU k (lt_length_of_boundedRun (by norm_num) hpk) hpk
        omega
    have h48 : nonce48 s = some (slice s i 48) := by
      unfold nonce48
      rw [hff]
      rfl
    simp only [extractNonce, h48]
  · intro i1 i2 i3 h48 h1 h2 h3 h12 h23 hU
    have hl1 : i1 < s.length := lt_length_of_boundedRun (by norm_num) h1
    have hl2 : i2 < s.length := lt_length_of_boundedRun (by norm_num) h2
    have hl3 : i3 < s.length := lt_length_of_boundedRun (by norm_num) h3
    have hd12 : i1 + 16 ≤ i2 := boundedRun_disjoint h1 h2 h12
    have hd23 : i2 + 16 ≤ i3 := boundedRun_disjoint h2 h3 h23
    have hf1 : find16 s 0 = some i1 := by
      unfold find16
      refine findFrom_eq_some_of (p := fun k => boundedRun s k 16) h1 (Nat.zero_le i1)
        (by omega) ?_
      intro k _ hk2
      cases hpk : boundedRun s k 16 with
      | false => exact hpk
      | true =>
        rcases hU k (lt_length_of_boundedRun (by norm_num) hpk) hpk with h | h | h <;> omega
    have hf2 : find16 s (i1 + 16) = some i2 := by
      unfold find16
      refine findFrom_eq_some_of (p := fun k => boundedRun s k 16) h2 hd12 (by omega) ?_
      intro k hk1 hk2
      cases hpk : boundedRun s k 16 with
      | false => exact hpk
      | true =>
        rcases hU k (lt_length_of_boundedRun (by norm_num) hpk) hpk with h | h | h <;> omega
    have hf3 : find16 s (i2 + 16) = some i3 := by
      unfold find16
      refine findFrom_eq_some_of (p := fun k => boundedRun s k 16) h3 hd23 (by omega) ?_
      intro k hk1 hk2
      cases hpk : boundedRun s k 16 with
      | false => exact hpk
      | true =>
        rcases hU k (lt_length_of_boundedRun (by norm_num) hpk) hpk with h | h | h <;> omega
    simp only [extractNonce, nonce48_eq_none_of h48, nonce3x16, hf1, hf2, hf3]
  · intro h48 hno
    have hn : nonce3x16 s = none := by
      cases hf1 : find16 s 0 with
      | none => simp only [nonce3x16, hf1]
      | some i1 =>
        obtain ⟨hp1, -, -⟩ := findFrom_some hf1
        cases hf2 : find16 s (i1 + 16) with
        | none => simp only [nonce3x16, hf1, hf2]
        | some i2 =>
          obtain ⟨hp2, hge2, -⟩ := findFrom_some hf2
          cases hf3 : find16 s (i2 + 16) with
          | none => simp only [nonce3x16, hf1, hf2, hf3]
          | some i3 =>
            obtain ⟨hp3, hge3, -⟩ := findFrom_some hf3
            exact absurd ⟨i1, i2, i3, by omega, by omega, hp1, hp2, hp3⟩ hno
    simp only [extractNonce, nonce48_eq_none_of h48, hn]

/-- Witness for C5: a body that is a single 48-character run yields that
run as the nonce. -/
theorem c5_nonce_two_patterns_witness :
    boundedRun body48 0 48 = true ∧ extractNonce body48 = some (slice body48 0 48) :=
  ⟨by decide, (c5_nonce_two_patterns body48).1 0 (by decide) (by decide)⟩

/-! ### C4: playlist parser pairing -/

theorem specVariants_length (base : List Char) :
    ∀ lines : List (List Char),
      (specVariants base lines).length = lines.countP (fun l => startsWithL markerLit l) := by
  intro lines
  induction lines with
  | nil => rfl
  | cons l rest ih =>
    simp only [specVariants, List.length_append, ih, List.countP_cons]
    cases hm : startsWithL markerLit l <;> simp [hm, Nat.add_comm]

theorem qLoop_eq_specVariants {base : List Char} :
    ∀ lines : List (List Char), goodNext lines = true →
      qLoop base lines = specVariants base lines := by
  intro lines
  induction lines with
  | nil => intro _; rfl
  | cons l rest ih =>
    intro h
    unfold goodNext at h
    rw [Bool.and_eq_true] at h
    obtain ⟨hA, hrest⟩ := h
    cases hm : startsWithL markerLit l with
    | false => simp [qLoop, specVariants, hm, ih hrest]
    | true =>
      rw [hm] at hA
      simp only [Bool.not_true, Bool.false_or, Bool.and_eq_true] at hA
      cases rest with
      | nil => simp at hA
      | cons l2 rest2 =>
        obtain ⟨⟨hne, hblank⟩, hcomment⟩ := hA
        simp only [List.headD_cons] at hblank hcomment
        refine congrArg₂ (· ++ ·) ?_ (ih hrest)
        simp [hm, hblank, hcomment]

/-- C4 (amended): the parser pairs each `#EXT-X-STREAM-INF` marker line
with the line *immediately* after it — a variant is emitted only when
that immediate next line exists and, after stripping, is non-blank and
does not start with `#` (otherwise the marker is skipped, not paired
with a later line).  On playlists where every marker line is immediately
followed by such a URL line, the parser returns exactly one variant per
marker, in source order, with resolution label the `WIDTHxHEIGHT`
attribute value when present and `"Unknown"` otherwise, relative URL
lines joined to the base path and `http`-prefixed URL lines passed
through unchanged (the content of `specVariants`/`joinUrl`). -/
theorem c4_playlist_variant_pairing (base : List Char) (lines : List (List Char))
    (h : goodNext lines = true) :
    qLoop base lines = specVariants base lines ∧
    (qLoop base lines).length = lines.countP (fun l => startsWithL markerLit l) := by
  refine ⟨qLoop_eq_specVariants lines h, ?_⟩
  rw [qLoop_eq_specVariants lines h, specVariants_length]

/-- Witness for C4: a playlist with two well-formed variants, the second
without a RESOLUTION attribute. -/
theorem c4_playlist_variant_pairing_witness :
    goodNext (splitOnNl (stripL playlistTwo)) = true ∧
    qLoop (baseOf masterUrl) (splitOnNl (stripL playlistTwo)) =
      specVariants (baseOf masterUrl) (splitOnNl (stripL playlistTwo)) ∧
    (qLoop (baseOf masterUrl) (splitOnNl (stripL playlistTwo))).length = 2 ∧
    extractQualityVariants playlistTwo masterUrl =
      [⟨"1920x1080".toList, "https://cdn.example/hls/1080.m3u8".toList⟩,
       ⟨"Unknown".toList, "https://cdn.example/hls/low/index.m3u8".toList⟩] :=
  ⟨by decide, (c4_playlist_variant_pairing (baseOf masterUrl) _ (by decide)).1,
    by decide, by decide⟩

/-- C4 counterexample: a playlist whose single marker line is followed by
a blank line and then a URL line.  The claim says the marker is paired
with the next non-comment, non-blank line (`1080.m3u8`, so one variant);
the code pairs only with the immediate next line and returns no
variants. -/
theorem c4_counterexample :
    extractQualityVariants playlistGap masterUrl = [] ∧
    (splitOnNl (stripL playlistGap)).countP (fun l => startsWithL markerLit l) = 1 ∧
    (splitOnNl (stripL playlistGap)).getD 2 [] = "1080.m3u8".toList := by decide

/-! ### C6: StreamTape pattern extraction -/

theorem takeWhile_append_stop {p : Char → Bool} {l1 : List Char} {c : Char} {l2 : List Char}
    (h : ∀ a ∈ l1, p a = true) (hc : p c = false) :
    (l1 ++ c :: l2).takeWhile p = l1 := by
  induction l1 with
  | nil => simp [List.takeWhile, hc]
  | cons a l ih =>
    have ha : p a = true := h a (by simp)
    simp [List.takeWhile, ha]
    exact ih fun b hb => h b (by simp [hb])

theorem p2At_cons_ne {c : Char} {s : List Char} (h : ¬(c = '+')) : p2At (c :: s) = none := by
  unfold p2At
  split
  · rename_i heq
    rw [List.cons.injEq] at heq
    exact absurd heq.1 h
  · rfl

theorem findPart2_append_no_plus {l : List Char} (rest : List Char)
    (h : ∀ c ∈ l, ¬(c = '+')) :
    findPart2 (l ++ rest) = findPart2 rest := by
  induction l with
  | nil => rfl
  | cons c l' ih =>
    have hc := p2At_cons_ne (s := l' ++ rest) (h c (by simp))
    have step : findPart2 (c :: (l' ++ rest)) = findPart2 (l' ++ rest) := by
      simp [findPart2, hc]
    rw [List.cons_append, step]
    exact ih fun b hb => h b (by simp [hb])

theorem findPart1_payload {p1 : List Char} (tl : List Char) (hne : p1 ≠ [])
    (hq : ∀ c ∈ p1, ¬(c = '\'')) :
    findPart1 (scriptPre ++ (p1 ++ '\'' :: tl)) = some p1 := by
  have hcap : (p1 ++ '\'' :: tl).takeWhile (fun c => !decide (c = '\'')) = p1 :=
    takeWhile_append_stop (fun a ha => by simp [hq a ha]) (by simp)
  have hie : p1.isEmpty = false := by
    cases p1 with
    | nil => exact absurd rfl hne
    | cons a l => rfl
  simp [scriptPre, findPart1, p1At, sMatchLit, litInner, isSpaceCh, hcap, hie,
    List.drop_left]

theorem findPart2_payload {p2 : List Char} (p1 : List Char) (hne : p2 ≠ [])
    (hq : ∀ c ∈ p2, ¬(c = '\'')) (hp : ∀ c ∈ p1, ¬(c = '+')) :
    findPart2 (scriptPre ++ (p1 ++ ('\'' :: " + ('xcd".toList ++ (p2 ++ "');".toList))))
      = some p2 := by
  have hcap : ∀ t, (p2 ++ '\'' :: t).takeWhile (fun c => !decide (c = '\'')) = p2 :=
    fun t => takeWhile_append_stop (fun a ha => by simp [hq a ha]) (by simp)
  have hie : p2.isEmpty = false := by
    cases p2 with
    | nil => exact absurd rfl hne
    | cons a l => rfl
  rw [← List.append_assoc scriptPre p1, findPart2_append_no_plus _
    (by intro c hc; rw [List.mem_append] at hc; rcases hc with hc | hc
        · revert c hc; decide
        · exact hp c hc)]
  simp [findPart2, p2At, sMatchLit, isSpaceCh, hcap, hie, List.drop_left]

theorem findPart2_only1 {p1 : List Char} (hp : ∀ c ∈ p1, ¬(c = '+')) :
    findPart2 (scriptOnly1 p1) = none := by
  unfold scriptOnly1
  rw [findPart2_append_no_plus ("';".toList) (l := scriptPre ++ p1) ?_]
  · decide
  · intro c hc
    rw [List.mem_append] at hc
    rcases hc with hc | hc
    · revert c hc
      decide
    · exact hp c hc

/-- C6: for robotlink scripts carrying the innerHTML assignment pattern,
the StreamTape resolver returns exactly one stream whose url is
`"https:" + part1 + part2`, where part1 is the single-quoted string
assigned to innerHTML and part2 the single-quoted string after the fixed
`xcd` prefix; part2 defaults to empty when the second pattern is absent,
and when the first pattern is absent the result is `none`. -/
theorem c6_streamtape_url_assembly :
    (∀ p1 p2 q subs, p1 ≠ [] → (∀ c ∈ p1, ¬(c = '\'')) → (∀ c ∈ p1, ¬(c = '+')) →
      p2 ≠ [] → (∀ c ∈ p2, ¬(c = '\'')) →
      stExtract (scriptFull p1 p2) q subs =
        some ⟨q, "https:".toList ++ p1 ++ p2, subs, none⟩) ∧
    (∀ p1 q subs, p1 ≠ [] → (∀ c ∈ p1, ¬(c = '\'')) → (∀ c ∈ p1, ¬(c = '+')) →
      stExtract (scriptOnly1 p1) q subs =
        some ⟨q, "https:".toList ++ p1, subs, none⟩) ∧
    (∀ script q subs, findPart1 script = none → stExtract script q subs = none) := by
  refine ⟨?_, ?_, ?_⟩
  · intro p1 p2 q subs h1 h2 h3 h4 h5
    have e1 : scriptFull p1 p2 =
        scriptPre ++ (p1 ++ '\'' :: (" + ('xcd".toList ++ (p2 ++ "');".toList))) := by
      simp [scriptFull]
    have e2 : scriptFull p1 p2 =
        scriptPre ++ (p1 ++ ('\'' :: " + ('xcd".toList ++ (p2 ++ "');".toList))) := by
      simp [scriptFull]
    have hf1 : findPart1 (scriptFull p1 p2) = some p1 := by
      rw [e1]
      exact findPart1_payload _ h1 h2
    have hf2 : findPart2 (scriptFull p1 p2) = some p2 := by
      rw [e2]
      exact findPart2_payload p1 h4 h5 h3
    simp [stExtract, hf1, hf2, List.append_assoc]
  · intro p1 q subs h1 h2 h3
    have e1 : scriptOnly1 p1 = scriptPre ++ (p1 ++ '\'' :: [';']) := by
      simp [scriptOnly1]
    have hf1 : findPart1 (scriptOnly1 p1) = some p1 := by
      rw [e1]
      exact findPart1_payload _ h1 h2
    have hf2 : findPart2 (scriptOnly1 p1) = none := findPart2_only1 h3
    simp [stExtract, hf1, hf2]
  · intro script q subs h
    simp [stExtract, h]

/-- Witness for C6: the spec's concrete example — `innerHTML = 'AAA'`
with `+ ('xcdBBB')` resolves to `https:AAABBB`. -/
theorem c6_streamtape_url_assembly_witness :
    stExtract (scriptFull "AAA".toList "BBB".toList) "Streamtape - sub".toList [] =
      some ⟨"Streamtape - sub".toList, "https:AAABBB".toList, [], none⟩ := by
  rw [c6_streamtape_url_assembly.1 "AAA".toList "BBB".toList _ _ (by decide) (by decide)
    (by decide) (by decide) (by decide)]
  decide

/-! ### C8/C10: lazy key fetch and the encrypted default -/

/-- An item needs decryption exactly when the plain-path test
`not encrypted or ".m3u8" in encoded` fails. -/
theorem needing_eq_not_plain (enc : Bool) (s : List Char) :
    (enc && !containsSub m3u8Lit s) = !(!enc || containsSub m3u8Lit s) := by
  cases enc <;> cases hc : containsSub m3u8Lit s <;> simp [hc]

theorem sourcesLoop_some_key (inp : McInput) (enc : Bool) :
    ∀ (l : List (List Char)) (k : List Char),
      (sourcesLoop inp enc l (some k)).2.1 = 0 ∧
      ∀ p ∈ (sourcesLoop inp enc l (some k)).2.2, p.2 = k := by
  intro l
  induction l with
  | nil =>
    intro k
    exact ⟨rfl, by intro p hp; simp [sourcesLoop] at hp⟩
  | cons s rest ih =>
    intro k
    by_cases hp : (!enc || containsSub m3u8Lit s) = true
    · refine ⟨by simp [sourcesLoop, hp, (ih k).1], ?_⟩
      intro p hpm
      simp only [sourcesLoop, hp, if_true] at hpm
      exact (ih k).2 p hpm
    · have hp' : (!enc || containsSub m3u8Lit s) = false := Bool.eq_false_iff.mpr hp
      cases hd : decryptStep inp s with
      | none =>
        refine ⟨by simp [sourcesLoop, hp', hd], ?_⟩
        intro p hpm
        simp only [sourcesLoop, hp', Bool.false_eq_true, if_false, hd,
          List.mem_singleton] at hpm
        rw [hpm]
      | some m =>
        refine ⟨by simp [sourcesLoop, hp', hd, (ih k).1], ?_⟩
        intro p hpm
        simp only [sourcesLoop, hp', Bool.false_eq_true, if_false, hd,
          List.mem_cons] at hpm
        rcases hpm with hpm | hpm
        · rw [hpm]
        · exact (ih k).2 p hpm

theorem sourcesLoop_none_count (inp : McInput) (enc : Bool) :
    ∀ l : List (List Char),
      (sourcesLoop inp enc l none).2.1 =
        if l.any (fun s => enc && !containsSub m3u8Lit s) then 1 else 0 := by
  intro l
  induction l with
  | nil => rfl
  | cons s rest ih =>
    by_cases hp : (!enc || containsSub m3u8Lit s) = true
    · have hns : (enc && !containsSub m3u8Lit s) = false := by
        rw [needing_eq_not_plain, hp]
        rfl
      simp [sourcesLoop, hp, ih, List.any_cons, hns]
    · have hp' : (!enc || containsSub m3u8Lit s) = false := Bool.eq_false_iff.mpr hp
      have hns : (enc && !containsSub m3u8Lit s) = true := by
        rw [needing_eq_not_plain, hp']
        rfl
      cases hk : inp.keyFetch with
      | error e => simp [sourcesLoop, hp', hk, List.any_cons, hns]
      | ok k =>
        cases hd : decryptStep inp s with
        | none => simp [sourcesLoop, hp', hk, hd, List.any_cons, hns]
        | some m =>
          simp [sourcesLoop, hp', hk, hd, List.any_cons, hns,
            (sourcesLoop_some_key inp enc rest k).1]

theorem sourcesLoop_none_keys (inp : McInput) (enc : Bool) :
    ∀ l : List (List Char),
      ∀ p ∈ (sourcesLoop inp enc l none).2.2, inp.keyFetch = .ok p.2 := by
  intro l
  induction l with
  | nil => intro p hp; simp [sourcesLoop] at hp
  | cons s rest ih =>
    intro p hpm
    by_cases hp : (!enc || containsSub m3u8Lit s) = true
    · simp only [sourcesLoop, hp, if_true] at hpm
      exact ih p hpm
    · have hp' : (!enc || containsSub m3u8Lit s) = false := Bool.eq_false_iff.mpr hp
      cases hk : inp.keyFetch with
      | error e =>
        simp only [sourcesLoop, hp', Bool.false_eq_true, if_false, hk,
          List.not_mem_nil] at hpm
      | ok k =>
        cases hd : decryptStep inp s with
        | none =>
          simp only [sourcesLoop, hp', Bool.false_eq_true, if_false, hk, hd,
            List.mem_singleton] at hpm
          rw [hpm]
        | some m =>
          simp only [sourcesLoop, hp', Bool.false_eq_true, if_false, hk, hd,
            List.mem_cons] at hpm
          rcases hpm with hpm | hpm
          · rw [hpm]
          · rw [(sourcesLoop_some_key inp enc rest k).2 p hpm]

theorem sLoop_plain (inp : McInput) (enc : Bool) (s : List Char)
    (rest : List (List Char)) (key : Option (List Char))
    (hp : (!enc || containsSub m3u8Lit s) = true) :
    (sourcesLoop inp enc (s :: rest) key).1 =
      (sourcesLoop inp enc rest key).1.map (fun ms => s :: ms) ∧
    (sourcesLoop inp enc (s :: rest) key).2.2 = (sourcesLoop inp enc rest key).2.2 := by
  constructor <;> simp [sourcesLoop, hp]

theorem sLoop_some_decFail (inp : McInput) (enc : Bool) (s : List Char)
    (rest : List (List Char)) (k : List Char)
    (hp : (!enc || containsSub m3u8Lit s) = false) (hd : decryptStep inp s = none) :
    (sourcesLoop inp enc (s :: rest) (some k)).1 =
      .error "Video URL not found in decrypted response" := by
  simp [sourcesLoop, hp, hd]

theorem sLoop_some_decOk (inp : McInput) (enc : Bool) (s : List Char)
    (rest : List (List Char)) (k m : List Char)
    (hp : (!enc || containsSub m3u8Lit s) = false) (hd : decryptStep inp s = some m) :
    (sourcesLoop inp enc (s :: rest) (some k)).1 =
      (sourcesLoop inp enc rest (some k)).1.map (fun ms => m :: ms) ∧
    (sourcesLoop inp enc (s :: rest) (some k)).2.2 =
      (s, k) :: (sourcesLoop inp enc rest (some k)).2.2 := by
  constructor <;> simp [sourcesLoop, hp, hd]

theorem sLoop_none_keyErr (inp : McInput) (enc : Bool) (s : List Char)
    (rest : List (List Char)) (e : Unit)
    (hp : (!enc || containsSub m3u8Lit s) = false) (hk : inp.keyFetch = .error e) :
    (sourcesLoop inp enc (s :: rest) none).1 = .error "Failed to fetch keys.json" := by
  simp [sourcesLoop, hp, hk]

theorem sLoop_none_decFail (inp : McInput) (enc : Bool) (s : List Char)
    (rest : List (List Char)) (k : List Char)
    (hp : (!enc || containsSub m3u8Lit s) = false) (hk : inp.keyFetch = .ok k)
    (hd : decryptStep inp s = none) :
    (sourcesLoop inp enc (s :: rest) none).1 =
      .error "Video URL not found in decrypted response" := by
  simp [sourcesLoop, hp, hk, hd]

theorem sLoop_none_decOk (inp : McInput) (enc : Bool) (s : List Char)
    (rest : List (List Char)) (k m : List Char)
    (hp : (!enc || containsSub m3u8Lit s) = false) (hk : inp.keyFetch = .ok k)
    (hd : decryptStep inp s = some m) :
    (sourcesLoop inp enc (s :: rest) none).1 =
      (sourcesLoop inp enc rest (some k)).1.map (fun ms => m :: ms) ∧
    (sourcesLoop inp enc (s :: rest) none).2.2 =
      (s, k) :: (sourcesLoop inp enc rest (some k)).2.2 := by
  constructor <;> simp [sourcesLoop, hp, hk, hd]

theorem sourcesLoop_success_logs (inp : McInput) (enc : Bool) :
    ∀ (l : List (List Char)) (key : Option (List Char)) (ms : List (List Char)),
      (sourcesLoop inp enc l key).1 = .ok ms →
      (sourcesLoop inp enc l key).2.2.map Prod.fst =
        l.filter (fun s => enc && !containsSub m3u8Lit s) := by
  intro l
  induction l with
  | nil => intro key ms _; rfl
  | cons s rest ih =>
    intro key ms hok
    by_cases hp : (!enc || containsSub m3u8Lit s) = true
    · have hns : (enc && !containsSub m3u8Lit s) = false := by
        rw [needing_eq_not_plain, hp]
        rfl
      rw [(sLoop_plain inp enc s rest key hp).1] at hok
      rw [(sLoop_plain inp enc s rest key hp).2]
      cases hr : (sourcesLoop inp enc rest key).1 with
      | error e => rw [hr] at hok; exact absurd hok (by simp [Except.map])
      | ok v =>
        simp only [List.filter_cons, hns, Bool.false_eq_true, if_false]
        exact ih key v hr
    · have hp' : (!enc || containsSub m3u8Lit s) = false := Bool.eq_false_iff.mpr hp
      have hns : (enc && !containsSub m3u8Lit s) = true := by
        rw [needing_eq_not_plain, hp']
        rfl
      cases key with
      | some k =>
        cases hd : decryptStep inp s with
        | none =>
          rw [sLoop_some_decFail inp enc s rest k hp' hd] at hok
          exact absurd hok (by simp)
        | some m =>
          rw [(sLoop_some_decOk inp enc s rest k m hp' hd).1] at hok
          rw [(sLoop_some_decOk inp enc s rest k m hp' hd).2]
          cases hr : (sourcesLoop inp enc rest (some k)).1 with
          | error e => rw [hr] at hok; exact absurd hok (by simp [Except.map])
          | ok v =>
            simp only [List.filter_cons, hns, if_true, List.map_cons]
            rw [ih (some k) v hr]
      | none =>
        cases hk : inp.keyFetch with
        | error e =>
          rw [sLoop_none_keyErr inp enc s rest e hp' hk] at hok
          exact absurd hok (by simp)
        | ok k =>
          cases hd : decryptStep inp s with
          | none =>
            rw [sLoop_none_decFail inp enc s rest k hp' hk hd] at hok
            exact absurd hok (by simp)
          | some m =>
            rw [(sLoop_none_decOk inp enc s rest k m hp' hk hd).1] at hok
            rw [(sLoop_none_decOk inp enc s rest k m hp' hk hd).2]
            cases hr : (sourcesLoop inp enc rest (some k)).1 with
            | error e => rw [hr] at hok; exact absurd hok (by simp [Except.map])
            | ok v =>
              simp only [List.filter_cons, hns, if_true, List.map_cons]
              rw [ih (some k) v hr]

theorem getVideoDtoI_count_le_one (inp : McInput) : (getVideoDtoI inp).2.1 ≤ 1 := by
  simp only [getVideoDtoI]
  repeat' split
  all_goals try exact Nat.zero_le 1
  all_goals
    rename_i data heq
    show (sourcesLoop inp (data.encrypted.getD true) data.sources none).2.1 ≤ 1
    rw [sourcesLoop_none_count]
    split
    · exact le_refl 1
    · exact Nat.zero_le 1

/-- C8: within one `_get_video_dto` run the key registry is queried at
most once; never when no source item requires decryption, and exactly
once when some item does (lazily, at the first such item); every
decryption request of the run carries the key returned by that single
fetch.  The loop's key state starts at `none` on every call — the key is
a local of `_get_video_dto`, so nothing is cached across calls. -/
theorem c8_key_fetched_once_per_call (inp : McInput) (enc : Bool)
    (sources : List (List Char)) :
    (getVideoDtoI inp).2.1 ≤ 1 ∧
    ((sourcesLoop inp enc sources none).2.1 =
      if sources.any (fun s => enc && !containsSub m3u8Lit s) then 1 else 0) ∧
    (∀ p ∈ (sourcesLoop inp enc sources none).2.2, inp.keyFetch = .ok p.2) :=
  ⟨getVideoDtoI_count_le_one inp, sourcesLoop_none_count inp enc sources,
    sourcesLoop_none_keys inp enc sources⟩

/-- Witness for C8: one encrypted payload, one key fetch, and the call to
the decryption service carries the fetched key. -/
theorem c8_key_fetched_once_per_call_witness :
    (sourcesLoop inpGood true ["encpayload".toList] none).2.1 = 1 ∧
    inpGood.keyFetch = .ok ("encpayload".toList, "k1".toList).2 := by
  constructor
  · rw [(c8_key_fetched_once_per_call inpGood true ["encpayload".toList]).2.1]
    decide
  · exact (c8_key_fetched_once_per_call inpGood true ["encpayload".toList]).2.2
      ("encpayload".toList, "k1".toList) (by decide)

/-- C10: when the sources JSON has no `encrypted` field the code defaults
it to `True`: on a successful run, the decryption service is called for
exactly the payloads that do not contain `".m3u8"` (in particular, every
such payload is routed through decryption rather than used verbatim). -/
theorem c10_missing_encrypted_defaults (inp : McInput) (data : SourcesJson)
    (items : List VideoItem)
    (hsf : inp.sourcesFetch = .ok (some data)) (henc : data.encrypted = none)
    (hok : getVideoDto inp = .ok items) :
    (getVideoDtoI inp).2.2.map Prod.fst =
      data.sources.filter (fun s => !containsSub m3u8Lit s) ∧
    ∀ s ∈ data.sources, containsSub m3u8Lit s = false →
      s ∈ (getVideoDtoI inp).2.2.map Prod.fst := by
  have hmain : (getVideoDtoI inp).2.2.map Prod.fst =
      data.sources.filter (fun s => !containsSub m3u8Lit s) := by
    unfold getVideoDto at hok
    cases h1 : (!containsSub splitterLit inp.url) with
    | true =>
      have hx : (getVideoDtoI inp).1 = .error "Failed to extract ID from URL" := by
        simp [getVideoDtoI, h1]
      rw [hx] at hok
      exact absurd hok (by simp)
    | false =>
    cases h2 : (List.takeWhile (fun c => !decide (c = '?'))
        ((afterLastSub splitterLit inp.url).getD [])).isEmpty with
    | true =>
      have hx : (getVideoDtoI inp).1 = .error "Failed to extract ID from URL" := by
        simp [getVideoDtoI, h1, h2]
      rw [hx] at hok
      exact absurd hok (by simp)
    | false =>
    cases h3 : (hostOf inp.url).isEmpty with
    | true =>
      have hx : (getVideoDtoI inp).1 = .error "MegaCloud host is invalid" := by
        simp [getVideoDtoI, h1, h2, h3]
      rw [hx] at hok
      exact absurd hok (by simp)
    | false =>
    cases hef : inp.embedFetch with
    | error e =>
      have hx : (getVideoDtoI inp).1 = .error "embed page fetch failed" := by
        simp [getVideoDtoI, h1, h2, h3, hef]
      rw [hx] at hok
      exact absurd hok (by simp)
    | ok body =>
    cases hn : extractNonce body with
    | none =>
      have hx : (getVideoDtoI inp).1 = .error "Failed to extract nonce from response" := by
        simp [getVideoDtoI, h1, h2, h3, hef, hn]
      rw [hx] at hok
      exact absurd hok (by simp)
    | some n =>
    have hval : getVideoDtoI inp =
        ((sourcesLoop inp (data.encrypted.getD true) data.sources none).1.map
            (fun ms => ms.map fun m => ⟨m, data.tracks⟩),
          (sourcesLoop inp (data.encrypted.getD true) data.sources none).2.1,
          (sourcesLoop inp (data.encrypted.getD true) data.sources none).2.2) := by
      simp [getVideoDtoI, h1, h2, h3, hef, hn, hsf]
    rw [hval] at hok
    replace hok : (sourcesLoop inp (data.encrypted.getD true) data.sources none).1.map
        (fun ms => ms.map fun m => (⟨m, data.tracks⟩ : VideoItem)) = Except.ok items := hok
    rw [hval]
    show (sourcesLoop inp (data.encrypted.getD true) data.sources none).2.2.map Prod.fst = _
    cases hr : (sourcesLoop inp (data.encrypted.getD true) data.sources none).1 with
    | error e =>
      rw [hr] at hok
      exact absurd hok (by simp [Except.map])
    | ok ms =>
      have hlogs := sourcesLoop_success_logs inp (data.encrypted.getD true)
        data.sources none ms hr
      rw [henc]
      rw [henc] at hlogs
      simpa using hlogs
  exact ⟨hmain, fun s hs hns => by
    rw [hmain]
    rw [List.mem_filter]
    exact ⟨hs, by rw [hns]; rfl⟩⟩

/-- Witness for C10: a sources response with no `encrypted` field and one
non-m3u8 payload routes that payload through the decryption service. -/
theorem c10_missing_encrypted_defaults_witness :
    (getVideoDtoI inpGood).2.2.map Prod.fst =
      (⟨["encpayload".toList], none, []⟩ : SourcesJson).sources.filter
        (fun s => !containsSub m3u8Lit s) :=
  (c10_missing_encrypted_defaults inpGood ⟨["encpayload".toList], none, []⟩
    [⟨"https://cdn.example/v/index.m3u8".toList, []⟩] rfl rfl (by rfl)).1

/-! ### C9: failures degrade to empty results -/

theorem sourcesLoop_keyErr_any (inp : McInput) (enc : Bool)
    (hk : inp.keyFetch = .error ()) :
    ∀ l : List (List Char), l.any (fun s => enc && !containsSub m3u8Lit s) = true →
      (sourcesLoop inp enc l none).1 = .error "Failed to fetch keys.json" := by
  intro l
  induction l with
  | nil => intro h; simp at h
  | cons s rest ih =>
    intro h
    by_cases hp : (!enc || containsSub m3u8Lit s) = true
    · have hns : (enc && !containsSub m3u8Lit s) = false := by
        rw [needing_eq_not_plain, hp]
        rfl
      rw [(sLoop_plain inp enc s rest none hp).1]
      rw [List.any_cons, hns, Bool.false_or] at h
      rw [ih h]
      rfl
    · exact sLoop_none_keyErr inp enc s rest () (Bool.eq_false_iff.mpr hp) hk

theorem sourcesLoop_decFail_any (inp : McInput) (enc : Bool) (k : List Char)
    (hk : inp.keyFetch = .ok k) (hd : ∀ s, decryptStep inp s = none) :
    ∀ l : List (List Char), l.any (fun s => enc && !containsSub m3u8Lit s) = true →
      (sourcesLoop inp enc l none).1 =
        .error "Video URL not found in decrypted response" := by
  intro l
  induction l with
  | nil => intro h; simp at h
  | cons s rest ih =>
    intro h
    by_cases hp : (!enc || containsSub m3u8Lit s) = true
    · have hns : (enc && !containsSub m3u8Lit s) = false := by
        rw [needing_eq_not_plain, hp]
        rfl
      rw [(sLoop_plain inp enc s rest none hp).1]
      rw [List.any_cons, hns, Bool.false_or] at h
      rw [ih h]
      rfl
    · exact sLoop_none_decFail inp enc s rest k (Bool.eq_false_iff.mpr hp) hk (hd s)

/-- C9: any failure inside an obfuscation resolver degrades to an empty
result.  The MegaCloud resolver returns `[]` whenever `_get_video_dto`
errors (its `try`/`except` swallows the exception), and each listed
failure mode — malformed embed URL, embed-page transport failure,
missing nonce, sources parse failure, key-fetch failure, decryption
failure — does make `_get_video_dto` error; the StreamTape resolver
returns `none` on a short non-canonical URL, a page with no robotlink
script, or a script without the innerHTML pattern.  No branch of either
model raises: both are total functions. -/
theorem c9_failures_degrade_to_empty :
    (∀ (inp : McInput) pf ty name e, getVideoDto inp = .error e →
      mcExtract inp pf ty name = []) ∧
    (∀ inp : McInput, containsSub splitterLit inp.url = false →
      getVideoDto inp = .error "Failed to extract ID from URL") ∧
    (∀ inp : McInput,
      containsSub splitterLit inp.url = true →
      (List.takeWhile (fun c => !decide (c = '?'))
        ((afterLastSub splitterLit inp.url).getD [])).isEmpty = false →
      (hostOf inp.url).isEmpty = false →
      (inp.embedFetch = .error () →
        getVideoDto inp = .error "embed page fetch failed") ∧
      (∀ body, inp.embedFetch = .ok body → extractNonce body = none →
        getVideoDto inp = .error "Failed to extract nonce from response") ∧
      (∀ body nn, inp.embedFetch = .ok body → extractNonce body = some nn →
        (inp.sourcesFetch = .ok none →
          getVideoDto inp = .error "Failed to parse sources response") ∧
        (∀ data, inp.sourcesFetch = .ok (some data) →
          data.sources.any
            (fun s => data.encrypted.getD true && !containsSub m3u8Lit s) = true →
          (inp.keyFetch = .error () →
            getVideoDto inp = .error "Failed to fetch keys.json") ∧
          (∀ k, inp.keyFetch = .ok k → (∀ s, decryptStep inp s = none) →
            getVideoDto inp =
              .error "Video URL not found in decrypted response")))) ∧
    (∀ (page : List Char → Option (List Char)) url q subs,
      (startsWithL stBaseUrl url = false → (splitOnCh '/' url).length < 5 →
        stFull page url q subs = none) ∧
      ((∀ u, page u = none) → stFull page url q subs = none) ∧
      ((∀ u scr, page u = some scr → findPart1 scr = none) →
        stFull page url q subs = none)) := by
  refine ⟨?_, ?_, ?_, ?_⟩
  · intro inp pf ty name e h
    simp [mcExtract, h]
  · intro inp h
    simp [getVideoDto, getVideoDtoI, h]
  · intro inp h1 h2 h3
    refine ⟨?_, ?_, ?_⟩
    · intro hef
      simp [getVideoDto, getVideoDtoI, h1, h2, h3, hef]
    · intro body hef hn
      simp [getVideoDto, getVideoDtoI, h1, h2, h3, hef, hn]
    · intro body nn hef hn
      refine ⟨?_, ?_⟩
      · intro hsf
        simp [getVideoDto, getVideoDtoI, h1, h2, h3, hef, hn, hsf]
      · intro data hsf hany
        refine ⟨?_, ?_⟩
        · intro hk
          have hloop := sourcesLoop_keyErr_any inp (data.encrypted.getD true) hk
            data.sources hany
          simp [getVideoDto, getVideoDtoI, h1, h2, h3, hef, hn, hsf, hloop, Except.map]
        · intro k hk hd
          have hloop := sourcesLoop_decFail_any inp (data.encrypted.getD true) k hk hd
            data.sources hany
          simp [getVideoDto, getVideoDtoI, h1, h2, h3, hef, hn, hsf, hloop, Except.map]
  · intro page url q subs
    refine ⟨?_, ?_, ?_⟩
    · intro h1 h2
      simp [stFull, h1, h2]
    · intro hpage
      by_cases h1 : startsWithL stBaseUrl url = true
      · simp [stFull, h1, hpage url]
      · have h1' := Bool.eq_false_iff.mpr h1
        by_cases h2 : (splitOnCh '/' url).length < 5
        · simp [stFull, h1', h2]
        · simp [stFull, h1', h2, hpage]
    · intro hpat
      by_cases h1 : startsWithL stBaseUrl url = true
      · cases hp : page url with
        | none => simp [stFull, h1, hp]
        | some scr => simp [stFull, h1, hp, stExtract, hpat url scr hp]
      · have h1' := Bool.eq_false_iff.mpr h1
        by_cases h2 : (splitOnCh '/' url).length < 5
        · simp [stFull, h1', h2]
        · cases hp : page (stBaseUrl ++ (splitOnCh '/' url)[4]?.getD []) with
          | none => simp [stFull, h1', h2, hp]
          | some scr =>
            simp [stFull, h1', h2, hp, stExtract,
              hpat (stBaseUrl ++ (splitOnCh '/' url)[4]?.getD []) scr hp]

/-- Witness for C9: a URL without the `/e-1/` splitter makes the DTO step
fail and the MegaCloud resolver returns the empty list. -/
theorem c9_failures_degrade_to_empty_witness :
    containsSub splitterLit inpBadUrl.url = false ∧
    mcExtract inpBadUrl pfFail "sub".toList "HD-1".toList = [] :=
  ⟨by decide, c9_failures_degrade_to_empty.1 inpBadUrl pfFail _ _ _
    (c9_failures_degrade_to_empty.2.1 inpBadUrl (by decide))⟩

/-! ### C3/C7: stream assembly and the referer field -/

theorem isEmpty_eq_false_of_ne {α : Type} {l : List α} (h : l ≠ []) :
    l.isEmpty = false := by
  cases l with
  | nil => exact absurd rfl h
  | cons a t => rfl

/-- C3: the MegaCloud stream assembly processes items independently; for
each item it emits one stream per quality variant, labelled
`"<name> - <resolution> - <type>"`, and when variant expansion is empty
but the playable URL is not, exactly one Auto stream whose url is the
base m3u8 URL, labelled `"<name> - Auto - <type>"`; the item's caption
subtitles are attached to every stream. -/
theorem c3_one_stream_per_variant (pf : List Char → Except Unit (List Char))
    (url ty name : List Char) (item : VideoItem) (rest : List VideoItem) :
    (mcBuild pf url ty name (item :: rest) =
      mcBuild pf url ty name [item] ++ mcBuild pf url ty name rest) ∧
    (extractQualitiesM pf item.m3u8 ≠ [] →
      mcBuild pf url ty name [item] =
        (extractQualitiesM pf item.m3u8).map fun q =>
          ⟨name ++ sepLit ++ q.resolution ++ sepLit ++ ty, q.url,
            subsOf item.tracks, some (refererOf url)⟩) ∧
    (extractQualitiesM pf item.m3u8 = [] → item.m3u8 ≠ [] →
      mcBuild pf url ty name [item] =
        [⟨name ++ sepLit ++ "Auto".toList ++ sepLit ++ ty, item.m3u8,
          subsOf item.tracks, some (refererOf url)⟩]) := by
  refine ⟨?_, ?_, ?_⟩
  · simp [mcBuild]
  · intro h
    simp [mcBuild, isEmpty_eq_false_of_ne h]
  · intro hq hm
    simp [mcBuild, hq, isEmpty_eq_false_of_ne hm]

/-- Witness for C3: an item whose playlist fetch fails yields exactly the
single Auto stream. -/
theorem c3_one_stream_per_variant_witness :
    extractQualitiesM pfFail itemAuto.m3u8 = [] ∧
    mcBuild pfFail "https://mega.example/e".toList "sub".toList "HD-1".toList [itemAuto] =
      [⟨"HD-1".toList ++ sepLit ++ "Auto".toList ++ sepLit ++ "sub".toList,
        itemAuto.m3u8, subsOf itemAuto.tracks,
        some (refererOf "https://mega.example/e".toList)⟩] :=
  ⟨by decide, (c3_one_stream_per_variant pfFail "https://mega.example/e".toList
    "sub".toList "HD-1".toList itemAuto []).2.2 (by decide) (by decide)⟩

theorem mcBuild_referer (pf : List Char → Except Unit (List Char))
    (url ty name : List Char) :
    ∀ items v, v ∈ mcBuild pf url ty name items → v.referer = some (refererOf url) := by
  intro items
  induction items with
  | nil => intro v hv; simp [mcBuild] at hv
  | cons item rest ih =>
    intro v hv
    simp only [mcBuild] at hv
    rcases List.mem_append.mp hv with hv | hv
    · rcases List.mem_append.mp hv with hv | hv
      · obtain ⟨q, hq, rfl⟩ := List.mem_map.mp hv
        rfl
      · split at hv
        · rw [List.mem_singleton] at hv
          subst hv
          rfl
        · simp at hv
    · exact ih v hv

theorem stExtract_referer (script q : List Char) (subs : List Sub) (v : Stream)
    (h : stExtract script q subs = some v) : v.referer = none := by
  unfold stExtract at h
  cases hf : findPart1 script with
  | none => rw [hf] at h; exact absurd h (by simp)
  | some p1 =>
    rw [hf] at h
    injection h with h
    rw [← h]

/-- C7 (amended): every stream the MegaCloud resolver emits carries
`referer = "https://" + host(embedUrl) + "/"`, but the StreamTape
resolver's stream dict has no referer key at all (modelled as
`referer = none`). -/
theorem c7_referer_on_streams :
    (∀ (inp : McInput) pf ty name v, v ∈ mcExtract inp pf ty name →
      v.referer = some ("https://".toList ++ hostOf inp.url ++ ['/'])) ∧
    (∀ (page : List Char → Option (List Char)) url q subs v,
      stFull page url q subs = some v → v.referer = none) := by
  constructor
  · intro inp pf ty name v hv
    unfold mcExtract at hv
    cases hg : getVideoDto inp with
    | error e => rw [hg] at hv; exact absurd hv (by simp)
    | ok items =>
      rw [hg] at hv
      exact mcBuild_referer pf inp.url ty name items v hv
  · intro page url q subs v h
    unfold stFull at h
    by_cases h1 : startsWithL stBaseUrl url = true
    · simp only [h1, if_true] at h
      cases hp : page url with
      | none => rw [hp] at h; exact absurd h (by simp)
      | some script =>
        rw [hp] at h
        exact stExtract_referer script q subs v h
    · simp only [if_neg h1] at h
      by_cases h2 : (splitOnCh '/' url).length < 5
      · simp only [if_pos h2] at h
        exact absurd h (by simp)
      · simp only [if_neg h2] at h
        cases hp : page (stBaseUrl ++ (splitOnCh '/' url).getD 4 []) with
        | none => rw [hp] at h; exact absurd h (by simp)
        | some script =>
          rw [hp] at h
          exact stExtract_referer _ q subs v h

/-- Witness for C7 (amended): a successful StreamTape resolution whose
stream has no referer field. -/
theorem c7_referer_on_streams_witness :
    (⟨"Streamtape - sub".toList, "https://streamtape.example/getabc".toList, [],
      none⟩ : Stream).referer = none :=
  c7_referer_on_streams.2 (fun _ => some scriptC)
    "https://streamtape.com/e/xyz".toList "Streamtape - sub".toList [] _ (by decide)

/-- C7 counterexample: a successful resolution (via the StreamTape
resolver) emits a stream that carries no referer field, contradicting
"every ResolvedStream emitted by a successful resolution carries a
referer equal to the embed host root". -/
theorem c7_counterexample :
    (stFull (fun _ => some scriptC) "https://streamtape.com/e/xyz".toList
      "Streamtape - sub".toList []).map Stream.referer = some none := by decide

/-! ### C1/C2: server lookup, fallback and dispatch -/

/-- C1 (the code evaluated at the failing input): the unfiltered
directory lists HD-1 under `mixed`, yet requesting it with type `dub`
returns the server-not-found error carrying four empty buckets —
`get_video` fetches the directory filtered to the requested type, so the
fallback scan over `sub, dub, mixed, raw` only ever sees the requested
bucket populated and can never resolve a hoster from another bucket. -/
theorem c1_fallback_cannot_cross_buckets :
    (episodeServers pageMixedOnly none).mixed = [⟨"7".toList, "HD-1".toList⟩] ∧
    getVideo pageMixedOnly linkC mcC stC "HD-1".toList .dub =
      .serverNotFound (episodeServers pageMixedOnly (some .dub)) ∧
    episodeServers pageMixedOnly (some .dub) = ⟨[], [], [], []⟩ := by decide

theorem findByName_congr (l : List RawItem) {s1 s2 : List Char}
    (h : lowerL s1 = lowerL s2) : findByName l s1 = findByName l s2 := by
  simp only [findByName, h]

theorem fallbackFind_congr (sv : ServerPage) {s1 s2 : List Char}
    (h : lowerL s1 = lowerL s2) :
    ∀ ts : List Track, fallbackFind sv s1 ts = fallbackFind sv s2 ts := by
  intro ts
  induction ts with
  | nil => rfl
  | cons t rest ih => simp only [fallbackFind, findByName_congr _ h, ih]

/-- C2 (amended): server-name lookup is case-insensitive — two spellings
with the same lowercasing select the same hoster and effective type, so
the same source link is fetched — but the resolver dispatch compares the
caller's string exactly against `"StreamTape"`, `"HD-1"`, `"HD-2"`,
`"HD-3"`; with any other spelling (such as `"hd-1"`) no resolver runs and
the result carries an empty stream list, so resolution is not identical
across casings. -/
theorem c2_lookup_insensitive_dispatch_sensitive :
    (∀ (page : ServerPage) (s1 s2 : List Char) (t : Track), lowerL s1 = lowerL s2 →
      selectTarget page s1 t = selectTarget page s2 t) ∧
    (∀ (page : ServerPage) linkOf mc st (server : List Char) (t : Track)
        (sv : List Char) (eff : Track) (link : List Char) (v : List Stream),
      ¬(server = "StreamTape".toList) → ¬(server ∈ hdNames) →
      getVideo page linkOf mc st server t = .ok sv eff link v → v = []) := by
  constructor
  · intro page s1 s2 t h
    simp only [selectTarget, findByName_congr _ h, fallbackFind_congr _ h]
  · intro page linkOf mc st server t sv eff link v h1 h2 hok
    unfold getVideo at hok
    cases hsel : selectTarget page server t with
    | none =>
      simp only [hsel] at hok
      exact absurd hok (by simp)
    | some te =>
      obtain ⟨tgt, eff'⟩ := te
      simp only [hsel] at hok
      by_cases hl : (linkOf tgt.id).isEmpty = true
      · rw [if_pos hl] at hok
        exact absurd hok (by simp)
      · rw [if_neg hl, if_neg h1] at hok
        simp only [decide_eq_false h2, Bool.false_eq_true, if_false] at hok
        injection hok with _ _ _ hv
        exact hv.symm

/-- Witness for C2 (amended): `"hd-1"` selects the same hoster as
`"HD-1"`, but its `get_video` result carries no streams. -/
theorem c2_lookup_insensitive_dispatch_sensitive_witness :
    selectTarget pageSubHD1 "hd-1".toList .sub =
      selectTarget pageSubHD1 "HD-1".toList .sub ∧
    videosOf (getVideo pageSubHD1 linkC mcC stC "hd-1".toList .sub) = [] :=
  ⟨c2_lookup_insensitive_dispatch_sensitive.1 pageSubHD1 "hd-1".toList "HD-1".toList
    .sub (by decide), by decide⟩

/-- C2 counterexample: with HD-1 listed under `sub` and extractors that
do return a stream, `get_video` with `"hd-1"` yields an empty stream list
while `"HD-1"` yields a non-empty one — resolution is not identical. -/
theorem c2_counterexample :
    videosOf (getVideo pageSubHD1 linkC mcC stC "hd-1".toList .sub) = [] ∧
    videosOf (getVideo pageSubHD1 linkC mcC stC "HD-1".toList .sub) ≠ [] := by decide

/-- C5 counterexample: `bodyUnd` contains a single 48-character
alphanumeric run (in the claim's sense: delimited by non-alphanumeric
neighbors — here a leading underscore), yet the code extracts no nonce,
because its `\b` requires non-word neighbors and `_` is a word
character. -/
theorem c5_counterexample :
    specAlnumRun bodyUnd 1 48 = true ∧
    (∀ j, j < bodyUnd.length → specAlnumRun bodyUnd j 48 = true → j = 1) ∧
    extractNonce bodyUnd = none := by decide

end HiAnimeSpec
